import Mathlib

/-!
Shallow embedding of the destination-naming and placement core of
`book-sorter-v2.py` (repository BrianVia/booksort), together with
verification of the spec's testable properties.

Python strings are modelled as Lean `String` (a list of characters);
`diskcache` and the filesystem are modelled as association lists from
path/key strings to value/content strings; the external Gemini suggestion
call is modelled as an `Except Unit String` input (the `Except.error`
case is a `GoogleAPIError`); OS-level failures of `os.link` /
`shutil.copy2` are modelled by an explicit environment record.
-/

namespace BookSort

/-- Python regex `\s` (and `str.isspace`): ASCII whitespace
`' '  \t  \n  \r  \x0b  \x0c  \x1c-\x1f` plus the Unicode whitespace
code points (NEL, NBSP, OGHAM, U+2000-200A, LINE/PARA SEP, NNBSP, MMSP,
IDEOGRAPHIC SPACE). -/
def isPySpace (c : Char) : Bool :=
  decide (c.toNat = 32 ∨ c.toNat = 9 ∨ c.toNat = 10 ∨ c.toNat = 13 ∨
    c.toNat = 11 ∨ c.toNat = 12 ∨ (28 ≤ c.toNat ∧ c.toNat ≤ 31) ∨
    c.toNat = 133 ∨ c.toNat = 160 ∨ c.toNat = 5760 ∨
    (8192 ≤ c.toNat ∧ c.toNat ≤ 8202) ∨ c.toNat = 8232 ∨ c.toNat = 8233 ∨
    c.toNat = 8239 ∨ c.toNat = 8287 ∨ c.toNat = 12288)

/-- ASCII letter or digit (`[A-Za-z0-9]`). -/
def isAsciiLetterDigit (c : Char) : Bool :=
  decide ((65 ≤ c.toNat ∧ c.toNat ≤ 90) ∨ (97 ≤ c.toNat ∧ c.toNat ≤ 122) ∨
    (48 ≤ c.toNat ∧ c.toNat ≤ 57))

/-- Python regex `\w` restricted to ASCII (`[A-Za-z0-9_]`); inside `slug`
the text has already been folded to ASCII, so this is exact there. -/
def isPyWordAscii (c : Char) : Bool :=
  isAsciiLetterDigit c || decide (c.toNat = 95)

/-- The character class `[A-Za-z0-9 -]` used by the spec to describe safe
slug output (no path separators, no control characters). -/
def isSafeChar (c : Char) : Bool :=
  isAsciiLetterDigit c || decide (c.toNat = 32) || decide (c.toNat = 45)

/-- Characters matched by `space_rx = [\s_]+`. -/
def spcU (c : Char) : Bool :=
  isPySpace c || decide (c.toNat = 95)

/-- Characters kept by `slug_rx.sub("", ...)` where `slug_rx = [^\w\s-]`. -/
def slugKeep (c : Char) : Bool :=
  isPyWordAscii c || isPySpace c || decide (c.toNat = 45)

/-- Model of `unicodedata.normalize("NFKD", ·)` at a single character:
ASCII code points are fixed by NFKD; a representative table decomposes
common Latin-1 accented letters into base letter plus combining mark and
models compatibility decompositions whose output is ASCII (such as
U+FF3F FULLWIDTH LOW LINE, which folds to `_`, and U+FB01 LATIN SMALL
LIGATURE FI, which folds to `fi`); remaining non-ASCII characters are
left as themselves (they are removed by the subsequent ASCII-ignore
encode).  The table is partial -- Unicode's full decomposition data is
not reproduced -- so no theorem below relies on its completeness:
statements about underscores are phrased directly over the folded
text. -/
def nfkd (c : Char) : List Char :=
  if c.toNat ≤ 127 then [c]
  else match c with
  | 'á' => ['a', '\u0301']
  | 'é' => ['e', '\u0301']
  | 'í' => ['i', '\u0301']
  | 'ó' => ['o', '\u0301']
  | 'ú' => ['u', '\u0301']
  | 'à' => ['a', '\u0300']
  | 'è' => ['e', '\u0300']
  | 'ä' => ['a', '\u0308']
  | 'ö' => ['o', '\u0308']
  | 'ü' => ['u', '\u0308']
  | 'ñ' => ['n', '\u0303']
  | 'ç' => ['c', '\u0327']
  | '\uff3f' => ['_']
  | '\ufb01' => ['f', 'i']
  | _ => [c]

/-- Model of `normalize("NFKD", text).encode("ascii", "ignore").decode()`:
decompose each character, then drop every non-ASCII code point. -/
def asciiFold (l : List Char) : List Char :=
  ((l.map nfkd).flatten).filter (fun c => decide (c.toNat ≤ 127))

/-- `slug_rx.sub("", ·)`: delete every character outside `[\w\s-]`. -/
def slugRxSub (l : List Char) : List Char :=
  l.filter slugKeep

/-- Python `str.strip()`: drop leading and trailing whitespace. -/
def pyStrip (l : List Char) : List Char :=
  (((l.dropWhile isPySpace).reverse.dropWhile isPySpace)).reverse

/-- `space_rx.sub(" ", ·)` with `space_rx = [\s_]+`: replace every maximal
run of whitespace/underscore characters by a single space. -/
def spaceRxSub : List Char → List Char
  | [] => []
  | [c] => if spcU c then [' '] else [c]
  | c1 :: c2 :: rest =>
    if spcU c1 then
      if spcU c2 then spaceRxSub (c2 :: rest)
      else ' ' :: spaceRxSub (c2 :: rest)
    else c1 :: spaceRxSub (c2 :: rest)

/-- Character-list core of `slug`. -/
def slugCore (l : List Char) : List Char :=
  spaceRxSub (pyStrip (slugRxSub (asciiFold l)))

/-- `slug(text)` from `book-sorter-v2.py`:
`text = normalize("NFKD", text).encode("ascii","ignore").decode()` then
`space_rx.sub(" ", slug_rx.sub("", text).strip())`. -/
def slug (s : String) : String :=
  ⟨slugCore s.data⟩

/-- Python `str.strip()` at `String` level (used on `resp.text`). -/
def pyStripStr (s : String) : String :=
  ⟨pyStrip s.data⟩

/-- `MAX_DIR_CHARS = 120`. -/
def MAX_DIR_CHARS : Nat := 120

/-- Python slicing `s[:MAX_DIR_CHARS]` (by code point). -/
def truncateMax (s : String) : String :=
  ⟨s.data.take MAX_DIR_CHARS⟩

/-- Association-list lookup, modelling `raw in CACHE` / `CACHE[raw]` and
`Path.exists` on the modelled filesystem. -/
def fsLookup (m : List (String × String)) (k : String) : Option String :=
  (m.find? (fun p => p.1 == k)).map (fun p => p.2)

/-- Association-list update, modelling `CACHE[raw] = v` and file creation. -/
def fsInsert (m : List (String × String)) (k v : String) : List (String × String) :=
  (k, v) :: m

/-- Result of one `smart_slug` call: the produced name, the cache state
after the call, and whether the cache was read, the Gemini suggestion
collaborator invoked, and `slug` invoked. -/
structure NameOut where
  name : String
  cache : List (String × String)
  cacheRead : Bool
  suggested : Bool
  slugged : Bool
deriving Repr, DecidableEq

/-- `smart_slug(title, author)` from `book-sorter-v2.py`: build the raw
key `f"{title} - {author}"`; on a cache hit return the cached value; on a
miss ask the suggestion collaborator (`resp`), sanitize a successful
response with `strip`/`slug`/truncation and store it in the cache; on a
`GoogleAPIError` fall back to `slug(raw)[:MAX_DIR_CHARS]` without caching. -/
def smart_slug (title author : String) (cache : List (String × String))
    (resp : Except Unit String) : NameOut :=
  let raw := title ++ " - " ++ author
  if raw = "" then ⟨raw, cache, false, false, false⟩
  else
    match fsLookup cache raw with
    | some v => ⟨v, cache, true, false, false⟩
    | none =>
      match resp with
      | Except.ok text =>
        let suggestion := truncateMax (slug (pyStripStr text))
        ⟨suggestion, fsInsert cache raw suggestion, true, true, true⟩
      | Except.error _ => ⟨truncateMax (slug raw), cache, true, true, true⟩

/-- Python truthiness of an optional string (`if title and author`): a
value is truthy when it is present and non-empty. -/
def truthy : Option String → Bool
  | none => false
  | some s => !(s == "")

/-- `dir_name = smart_slug(title, author) if title and author else "Unsorted"`
(line 181 of `book-sorter-v2.py`). -/
def dirNameFor (t a : Option String) (cache : List (String × String))
    (resp : Except Unit String) : NameOut :=
  if truthy t && truthy a then smart_slug (t.getD "") (a.getD "") cache resp
  else ⟨"Unsorted", cache, false, false, false⟩

/-- Tail test `[^.]+$` of the filename pattern: the text after the literal
dot matches iff it is non-empty and contains no further dot (re `$` also
matches just before a final newline, which `[^.]+` may swallow). -/
def extOk (r : List Char) : Bool :=
  !r.isEmpty && r.all (fun c => !(c == '.'))

/-- Does the remainder begin with the literal `.` followed by a valid
extension (`\.[^.]+$`)? -/
def dotNext : List Char → Bool
  | '.' :: r2 => extOk r2
  | _ => false

/-- Lazy search for group 2 of `(.+?)\s*-\s*(.+?)\.[^.]+$`: extend the
group one (non-newline) character at a time, returning the shortest
capture after which `\.[^.]+$` matches. -/
def g2From (pre : List Char) : List Char → Option (List Char)
  | [] => none
  | c :: rest =>
    if c = '\n' then none
    else if dotNext rest then some (pre ++ [c])
    else g2From (pre ++ [c]) rest

/-- `\s*-`: consume the maximal whitespace run, then require a hyphen;
(a shorter run would leave a whitespace character where `-` is required,
so the greedy `\s*` is deterministic here). Returns the text after `-`. -/
def dashTail (l : List Char) : Option (List Char) :=
  match l.dropWhile isPySpace with
  | '-' :: r => some r
  | _ => none

/-- Backtracking over the second `\s*` (greedy, longest first): try
consuming `j` whitespace characters for `j = k, k-1, ..., 0` and run the
group-2 search on what remains. -/
def s2TryAux (r : List Char) : Nat → Option (List Char)
  | 0 => g2From [] r
  | j + 1 =>
    match g2From [] (r.drop (j + 1)) with
    | some g => some g
    | none => s2TryAux r j

/-- Lazy search for group 1 of `(.+?)\s*-\s*(.+?)\.[^.]+$` anchored at the
start (`re.match`): extend group 1 one (non-newline) character at a time;
after each candidate, try `\s*-\s*` and the group-2 search on the rest. -/
def g1From (pre : List Char) : List Char → Option (List Char × List Char)
  | [] => none
  | c :: rest =>
    if c = '\n' then none
    else
      match dashTail rest with
      | some afterDash =>
        match s2TryAux afterDash ((afterDash.takeWhile isPySpace).length) with
        | some g2 => some (pre ++ [c], g2)
        | none => g1From (pre ++ [c]) rest
      | none => g1From (pre ++ [c]) rest

/-- `fallback_meta` from `book-sorter-v2.py`:
`re.match(r"(.+?)\s*-\s*(.+?)\.[^.]+$", path.name)`, returning the two
captured groups, or `(None, None)` when the base name does not match. -/
def fallback_meta (name : String) : Option String × Option String :=
  match g1From [] name.data with
  | some (g1, g2) => (some ⟨g1⟩, some ⟨g2⟩)
  | none => (none, none)

/-- Lines 170-172 of `process_one`: keep the extracted `(title, author)`
pair only when both fields are truthy; otherwise replace BOTH fields by
the `fallback_meta` result for the file's base name. -/
def resolveMeta (e : Option String × Option String) (fname : String) :
    Option String × Option String :=
  if truthy e.1 && truthy e.2 then e else fallback_meta fname

/-- `DST_ROOT` from `book-sorter-v2.py`. -/
def DST_ROOT : String := "/mnt/storage/Books/Organized"

/-- `pathlib` `/` join for a single (possibly empty) relative component:
joining with the empty string leaves the path unchanged. -/
def pathJoin (base child : String) : String :=
  if child = "" then base else base ++ "/" ++ child

/-- Destination data computed by `process_one` for one file: the chosen
directory name, the destination directory and file paths, plus the
cache/collaborator trace of the naming step. -/
structure ProcOut where
  name : String
  destDir : String
  destFile : String
  cache : List (String × String)
  cacheRead : Bool
  suggested : Bool
  slugged : Bool
deriving Repr, DecidableEq

/-- Naming and path-construction part of `process_one` (lines 170-184):
resolve metadata, pick `dir_name`, then
`dest_dir = DST_ROOT / dir_name` and `dest_file = dest_dir / file_path.name`.
The extraction result of `ebook-meta` is an input (`e`), as is the file's
base name, the cache state and the suggestion response. -/
def process_one_paths (fname : String) (e : Option String × Option String)
    (cache : List (String × String)) (resp : Except Unit String) : ProcOut :=
  let m := resolveMeta e fname
  let o := dirNameFor m.1 m.2 cache resp
  let dd := pathJoin DST_ROOT o.name
  ⟨o.name, dd, pathJoin dd fname, o.cache, o.cacheRead, o.suggested, o.slugged⟩

/-- `--mode` values of `book-sorter-v2.py` (`ensure_link` treats anything
other than `copy`/`symlink` as hard-link, and `main` only ever passes
these three). -/
inductive Mode
  | hardlink
  | copy
  | symlink
deriving Repr, DecidableEq

/-- Spec §3 `PlacementResult`. -/
inductive PlacementResult
  | created
  | alreadyExisted
  | fellBackToCopy
  | failed
deriving Repr, DecidableEq

/-- Filesystem operations `ensure_link` can attempt. -/
inductive FsOp
  | link
  | copy
  | symlink
deriving Repr, DecidableEq

/-- Environment nondeterminism for one `ensure_link` call: a forced
`OSError` errno for `os.link` (18 = EXDEV), whether `shutil.copy2`
raises, and a forced error for `Path.symlink_to`. -/
structure FsEnv where
  linkErrno : Option Nat
  copyErr : Bool
  symlinkErr : Option Nat
deriving Repr, DecidableEq

/-- Result of `ensure_link`: filesystem after the call, the spec-level
`PlacementResult` of the taken path, and the attempted operations. -/
structure PlaceOut where
  fs : List (String × String)
  result : PlacementResult
  ops : List FsOp
deriving Repr, DecidableEq

/-- `ensure_link(src, dst, mode)` from `book-sorter-v2.py` over the
modelled filesystem `fs` and environment `env`.  If `dst` exists the call
returns immediately (idempotency).  `copy` verifies the source first;
`symlink` does not; hard-link falls back to `shutil.copy2` on EXDEV after
re-verifying the source, and any remaining `OSError` is reported and
swallowed (`failed`). -/
def ensure_link (src dst : String) (mode : Mode)
    (fs : List (String × String)) (env : FsEnv) : PlaceOut :=
  if (fsLookup fs dst).isSome then ⟨fs, PlacementResult.alreadyExisted, []⟩
  else
    match mode with
    | Mode.copy =>
      match fsLookup fs src with
      | none => ⟨fs, PlacementResult.failed, []⟩
      | some content =>
        if env.copyErr then ⟨fs, PlacementResult.failed, [FsOp.copy]⟩
        else ⟨fsInsert fs dst content, PlacementResult.created, [FsOp.copy]⟩
    | Mode.symlink =>
      match env.symlinkErr with
      | some _ => ⟨fs, PlacementResult.failed, [FsOp.symlink]⟩
      | none =>
        match fsLookup fs src with
        | some content => ⟨fsInsert fs dst content, PlacementResult.created, [FsOp.symlink]⟩
        | none => ⟨fs, PlacementResult.created, [FsOp.symlink]⟩
    | Mode.hardlink =>
      match env.linkErrno with
      | none =>
        match fsLookup fs src with
        | none => ⟨fs, PlacementResult.failed, [FsOp.link]⟩
        | some content => ⟨fsInsert fs dst content, PlacementResult.created, [FsOp.link]⟩
      | some e =>
        if e = 18 then
          match fsLookup fs src with
          | none => ⟨fs, PlacementResult.failed, [FsOp.link]⟩
          | some content =>
            if env.copyErr then ⟨fs, PlacementResult.failed, [FsOp.link, FsOp.copy]⟩
            else ⟨fsInsert fs dst content, PlacementResult.fellBackToCopy, [FsOp.link, FsOp.copy]⟩
        else ⟨fs, PlacementResult.failed, [FsOp.link]⟩

/-- No two adjacent characters both match `[\s_]`. -/
def noDoubleSpc : List Char → Bool
  | [] => true
  | [_] => true
  | a :: b :: r => !(spcU a && spcU b) && noDoubleSpc (b :: r)

/-- First character is whitespace. -/
def headIsWs (s : String) : Bool :=
  match s.data.head? with
  | some c => isPySpace c
  | none => false

/-- Last character is whitespace. -/
def lastIsWs (s : String) : Bool :=
  match s.data.getLast? with
  | some c => isPySpace c
  | none => false

/-- Spec §3 `DestinationName` sanity (minus non-emptiness): at most
`MAX_DIR_CHARS` characters, and only characters from `[A-Za-z0-9 -]`. -/
def goodName (s : String) : Bool :=
  decide (s.data.length ≤ MAX_DIR_CHARS) && s.data.all isSafeChar

/-! ## Character-class lemmas -/

theorem char_eq_of_toNat_eq {c : Char} {n : Nat} (h : c.toNat = n) :
    c = Char.ofNat n := by
  have h2 : c = Char.ofNat c.toNat := (Char.ofNat_toNat c).symm
  rw [h] at h2
  exact h2

theorem safe_toNat_le {c : Char} (h : isSafeChar c = true) : c.toNat ≤ 127 := by
  simp [isSafeChar, isAsciiLetterDigit] at h
  omega

theorem safe_spcU {c : Char} (hs : isSafeChar c = true) (hu : spcU c = true) :
    c = ' ' := by
  have h32 : c.toNat = 32 := by
    simp [isSafeChar, isAsciiLetterDigit] at hs
    simp [spcU, isPySpace] at hu
    omega
  have h2 := char_eq_of_toNat_eq h32
  simpa using h2

theorem safe_slugKeep {c : Char} (h : isSafeChar c = true) : slugKeep c = true := by
  simp [isSafeChar, isAsciiLetterDigit] at h
  simp [slugKeep, isPyWordAscii, isAsciiLetterDigit, isPySpace]
  omega

theorem keep_not_spcU_safe {c : Char} (hk : slugKeep c = true) (hu : spcU c = false) :
    isSafeChar c = true := by
  simp [slugKeep, isPyWordAscii, isAsciiLetterDigit, isPySpace] at hk
  simp [spcU, isPySpace] at hu
  simp [isSafeChar, isAsciiLetterDigit]
  omega

theorem safe_not_pySpace_of_ne_space {c : Char} (hs : isSafeChar c = true)
    (hne : c ≠ ' ') : isPySpace c = false := by
  by_contra h
  have h2 : spcU c = true := by
    simp at h
    simp [spcU, h]
  exact hne (safe_spcU hs h2)

/-! ## `nfkd` / `asciiFold` lemmas -/

theorem nfkd_ascii {c : Char} (h : c.toNat ≤ 127) : nfkd c = [c] := by
  unfold nfkd
  rw [if_pos h]

theorem asciiFold_ascii {l : List Char} {c : Char} (h : c ∈ asciiFold l) :
    c.toNat ≤ 127 := by
  unfold asciiFold at h
  have := List.of_mem_filter h
  simpa using this

theorem asciiFold_append (l1 l2 : List Char) :
    asciiFold (l1 ++ l2) = asciiFold l1 ++ asciiFold l2 := by
  simp [asciiFold]

theorem asciiFold_safe_id {l : List Char} (h : ∀ c ∈ l, isSafeChar c = true) :
    asciiFold l = l := by
  induction l with
  | nil => rfl
  | cons c r ih =>
    have hc : isSafeChar c = true := h c (List.mem_cons_self c r)
    have hr := ih (fun x hx => h x (List.mem_cons_of_mem c hx))
    have hascii := safe_toNat_le hc
    unfold asciiFold
    simp only [List.map_cons, List.flatten_cons, List.filter_append]
    rw [nfkd_ascii hascii]
    unfold asciiFold at hr
    rw [hr]
    simp [hascii]

/-! ## `spaceRxSub` and `noDoubleSpc` lemmas -/

theorem spaceRxSub_mem : ∀ (l : List Char), ∀ c ∈ spaceRxSub l,
    c = ' ' ∨ (c ∈ l ∧ spcU c = false)
  | [], c, hc => by simp [spaceRxSub] at hc
  | [c0], c, hc => by
    by_cases h : spcU c0
    · simp [spaceRxSub, h] at hc
      exact Or.inl hc
    · simp [spaceRxSub, h] at hc
      exact Or.inr ⟨by simp [hc], by rw [hc]; simp [h]⟩
  | c1 :: c2 :: rest, c, hc => by
    by_cases h1 : spcU c1
    · by_cases h2 : spcU c2
      · simp only [spaceRxSub, if_pos h1, if_pos h2] at hc
        rcases spaceRxSub_mem (c2 :: rest) c hc with h | ⟨hm, hs⟩
        · exact Or.inl h
        · exact Or.inr ⟨List.mem_cons_of_mem c1 hm, hs⟩
      · simp only [spaceRxSub, if_pos h1, if_neg h2] at hc
        rcases List.mem_cons.mp hc with h | h
        · exact Or.inl h
        · rcases spaceRxSub_mem (c2 :: rest) c h with h3 | ⟨hm, hs⟩
          · exact Or.inl h3
          · exact Or.inr ⟨List.mem_cons_of_mem c1 hm, hs⟩
    · simp only [spaceRxSub, if_neg h1] at hc
      rcases List.mem_cons.mp hc with h | h
      · exact Or.inr ⟨by simp [h], by rw [h]; simpa using h1⟩
      · rcases spaceRxSub_mem (c2 :: rest) c h with h3 | ⟨hm, hs⟩
        · exact Or.inl h3
        · exact Or.inr ⟨List.mem_cons_of_mem c1 hm, hs⟩

theorem spaceRxSub_cons_head : ∀ (c : Char) (l : List Char),
    ∃ t, spaceRxSub (c :: l) = (if spcU c then ' ' else c) :: t
  | c0, [] => ⟨[], by by_cases h : spcU c0 <;> simp [spaceRxSub, h]⟩
  | c1, c2 :: rest => by
    by_cases h1 : spcU c1
    · by_cases h2 : spcU c2
      · obtain ⟨t, ht⟩ := spaceRxSub_cons_head c2 rest
        exact ⟨t, by simp [spaceRxSub, h1, h2, ht]⟩
      · exact ⟨spaceRxSub (c2 :: rest), by simp [spaceRxSub, h1, h2]⟩
    · exact ⟨spaceRxSub (c2 :: rest), by simp [spaceRxSub, h1]⟩

theorem spaceRxSub_ne_nil : ∀ (l : List Char), l ≠ [] → spaceRxSub l ≠ []
  | [], h => absurd rfl h
  | [c], _ => by by_cases h : spcU c <;> simp [spaceRxSub, h]
  | c1 :: c2 :: rest, _ => by
    have ih := spaceRxSub_ne_nil (c2 :: rest) (by simp)
    by_cases h1 : spcU c1
    · by_cases h2 : spcU c2
      · simpa [spaceRxSub, h1, h2] using ih
      · simp [spaceRxSub, h1, h2]
    · simp [spaceRxSub, h1]

theorem noDouble_cons_tail {a : Char} {l : List Char}
    (h : noDoubleSpc (a :: l) = true) : noDoubleSpc l = true := by
  cases l with
  | nil => rfl
  | cons b r =>
    simp [noDoubleSpc] at h
    exact h.2

theorem noDouble_spaceRxSub : ∀ (l : List Char), noDoubleSpc (spaceRxSub l) = true
  | [] => rfl
  | [c] => by by_cases h : spcU c <;> simp [spaceRxSub, h, noDoubleSpc]
  | c1 :: c2 :: rest => by
    have ih := noDouble_spaceRxSub (c2 :: rest)
    obtain ⟨t, ht⟩ := spaceRxSub_cons_head c2 rest
    by_cases h1 : spcU c1
    · by_cases h2 : spcU c2
      · simpa [spaceRxSub, h1, h2] using ih
      · have ih2 : noDoubleSpc (c2 :: t) = true := by rw [ht, if_neg h2] at ih; exact ih
        have hgoal : spaceRxSub (c1 :: c2 :: rest) = ' ' :: c2 :: t := by
          simp only [spaceRxSub, if_pos h1, if_neg h2]
          rw [ht, if_neg h2]
        rw [hgoal]
        simp [noDoubleSpc, h2, ih2]
    · by_cases h2 : spcU c2
      · have ih2 : noDoubleSpc (' ' :: t) = true := by rw [ht, if_pos h2] at ih; exact ih
        have hgoal : spaceRxSub (c1 :: c2 :: rest) = c1 :: ' ' :: t := by
          simp only [spaceRxSub, if_neg h1]
          rw [ht, if_pos h2]
        rw [hgoal]
        simp [noDoubleSpc, h1, ih2]
      · have ih2 : noDoubleSpc (c2 :: t) = true := by rw [ht, if_neg h2] at ih; exact ih
        have hgoal : spaceRxSub (c1 :: c2 :: rest) = c1 :: c2 :: t := by
          simp only [spaceRxSub, if_neg h1]
          rw [ht, if_neg h2]
        rw [hgoal]
        simp [noDoubleSpc, h1, ih2]

theorem spaceRxSub_id : ∀ (l : List Char), (∀ c ∈ l, isSafeChar c = true) →
    noDoubleSpc l = true → spaceRxSub l = l
  | [], _, _ => rfl
  | [c], hs, _ => by
    by_cases h : spcU c
    · have he : c = ' ' := safe_spcU (hs c (by simp)) h
      simp [spaceRxSub, h, he]
    · simp [spaceRxSub, h]
  | c1 :: c2 :: rest, hs, hd => by
    have ih := spaceRxSub_id (c2 :: rest)
      (fun c hc => hs c (List.mem_cons_of_mem c1 hc)) (noDouble_cons_tail hd)
    by_cases h1 : spcU c1
    · have he : c1 = ' ' := safe_spcU (hs c1 (by simp)) h1
      have h2 : spcU c2 = false := by
        have hd2 := hd
        simp [noDoubleSpc, h1] at hd2
        exact hd2.1
      simp [spaceRxSub, h1, h2, ih, he]
    · simp [spaceRxSub, h1, ih]

theorem spaceRxSub_append_last : ∀ (l : List Char) (c : Char), spcU c = false →
    spaceRxSub (l ++ [c]) = spaceRxSub l ++ [c]
  | [], c, h => by simp [spaceRxSub, h]
  | [a], c, h => by by_cases ha : spcU a <;> simp [spaceRxSub, ha, h]
  | a :: b :: r, c, h => by
    have ih := spaceRxSub_append_last (b :: r) c h
    by_cases ha : spcU a <;> by_cases hb : spcU b <;>
      simp only [List.cons_append] at ih ⊢ <;>
      simp [spaceRxSub, ha, hb, ih]

theorem noDouble_append_left : ∀ (s m : List Char),
    noDoubleSpc (s ++ m) = true → noDoubleSpc m = true
  | [], _, h => h
  | a :: s2, m, h =>
    noDouble_append_left s2 m (noDouble_cons_tail (by simpa using h))

theorem noDouble_append_right : ∀ (m t : List Char),
    noDoubleSpc (m ++ t) = true → noDoubleSpc m = true
  | [], _, _ => rfl
  | [a], _, _ => rfl
  | a :: b :: r, t, h => by
    simp only [List.cons_append] at h
    simp only [noDoubleSpc, Bool.and_eq_true] at h ⊢
    refine ⟨h.1, ?_⟩
    exact noDouble_append_right (b :: r) t (by simpa using h.2)

/-! ## `pyStrip` lemmas -/

theorem head_dropWhile {p : Char → Bool} : ∀ (l : List Char) {c : Char},
    (l.dropWhile p).head? = some c → p c = false
  | [], c, h => by simp [List.dropWhile] at h
  | a :: r, c, h => by
    by_cases ha : p a
    · rw [List.dropWhile_cons_of_pos ha] at h
      exact head_dropWhile r h
    · rw [List.dropWhile_cons_of_neg ha] at h
      simp at h
      rw [← h]
      simpa using ha

theorem mem_dropWhile_of_not {p : Char → Bool} : ∀ (l : List Char) {c : Char},
    c ∈ l → p c = false → c ∈ l.dropWhile p
  | [], c, hm, _ => absurd hm (List.not_mem_nil c)
  | a :: r, c, hm, hp => by
    by_cases ha : p a
    · rw [List.dropWhile_cons_of_pos ha]
      rcases List.mem_cons.mp hm with h | h
      · rw [h] at hp
        rw [hp] at ha
        exact absurd ha (by simp)
      · exact mem_dropWhile_of_not r h hp
    · rw [List.dropWhile_cons_of_neg ha]
      exact hm

theorem pyStrip_decomp (l : List Char) : ∃ s t, s ++ (pyStrip l ++ t) = l := by
  refine ⟨l.takeWhile isPySpace,
    ((l.dropWhile isPySpace).reverse.takeWhile isPySpace).reverse, ?_⟩
  have h3 := List.takeWhile_append_dropWhile isPySpace (l.dropWhile isPySpace).reverse
  have h4 := congrArg List.reverse h3
  rw [List.reverse_append, List.reverse_reverse] at h4
  have h5 : pyStrip l ++ ((l.dropWhile isPySpace).reverse.takeWhile isPySpace).reverse =
      l.dropWhile isPySpace := h4
  rw [h5]
  exact List.takeWhile_append_dropWhile isPySpace l

theorem pyStrip_mem {l : List Char} {c : Char} (h : c ∈ pyStrip l) : c ∈ l := by
  obtain ⟨s, t, hst⟩ := pyStrip_decomp l
  rw [← hst]
  simp [h]

theorem pyStrip_head {l : List Char} {c : Char} (h : (pyStrip l).head? = some c) :
    isPySpace c = false := by
  have h0 : (((l.dropWhile isPySpace).reverse.dropWhile isPySpace).reverse).head? = some c := h
  rw [List.head?_reverse] at h0
  have hw_ne : (l.dropWhile isPySpace).reverse.dropWhile isPySpace ≠ [] := by
    intro hnil
    rw [hnil] at h0
    simp at h0
  have h2 := List.takeWhile_append_dropWhile isPySpace (l.dropWhile isPySpace).reverse
  have h3 : (l.dropWhile isPySpace).reverse.getLast? = some c := by
    rw [← h2]
    cases hw : (l.dropWhile isPySpace).reverse.dropWhile isPySpace with
    | nil => exact absurd hw hw_ne
    | cons a r =>
      rw [List.getLast?_append_of_ne_nil _ (List.cons_ne_nil a r)]
      rw [← hw]
      exact h0
  rw [List.getLast?_reverse] at h3
  exact head_dropWhile l h3

theorem pyStrip_last {l : List Char} {c : Char} (h : (pyStrip l).getLast? = some c) :
    isPySpace c = false := by
  have h0 : (((l.dropWhile isPySpace).reverse.dropWhile isPySpace).reverse).getLast? = some c := h
  rw [List.getLast?_reverse] at h0
  exact head_dropWhile _ h0

theorem pyStrip_ne_nil {l : List Char} {c : Char} (hm : c ∈ l)
    (hc : isPySpace c = false) : pyStrip l ≠ [] := by
  have h1 : c ∈ l.dropWhile isPySpace := mem_dropWhile_of_not l hm hc
  have h2 : c ∈ (l.dropWhile isPySpace).reverse := List.mem_reverse.mpr h1
  have h3 : c ∈ (l.dropWhile isPySpace).reverse.dropWhile isPySpace :=
    mem_dropWhile_of_not _ h2 hc
  have h4 : c ∈ pyStrip l := by
    show c ∈ ((l.dropWhile isPySpace).reverse.dropWhile isPySpace).reverse
    exact List.mem_reverse.mpr h3
  intro hnil
  rw [hnil] at h4
  simp at h4

theorem dropWhile_eq_self_of_head {p : Char → Bool} {l : List Char}
    (h : ∀ c, l.head? = some c → p c = false) : l.dropWhile p = l := by
  cases l with
  | nil => rfl
  | cons a r =>
    have ha := h a rfl
    rw [List.dropWhile_cons_of_neg (by simp [ha])]

theorem pyStrip_eq_self {l : List Char}
    (hh : ∀ c, l.head? = some c → isPySpace c = false)
    (hl : ∀ c, l.getLast? = some c → isPySpace c = false) : pyStrip l = l := by
  have h1 : l.dropWhile isPySpace = l := dropWhile_eq_self_of_head hh
  show ((l.dropWhile isPySpace).reverse.dropWhile isPySpace).reverse = l
  rw [h1]
  have h2 : l.reverse.dropWhile isPySpace = l.reverse := by
    apply dropWhile_eq_self_of_head
    intro c hc
    rw [List.head?_reverse] at hc
    exact hl c hc
  rw [h2, List.reverse_reverse]

theorem pyStrip_idem (l : List Char) : pyStrip (pyStrip l) = pyStrip l :=
  pyStrip_eq_self (fun _ hc => pyStrip_head hc) (fun _ hc => pyStrip_last hc)

theorem noDouble_pyStrip {l : List Char} (h : noDoubleSpc l = true) :
    noDoubleSpc (pyStrip l) = true := by
  obtain ⟨s, t, hst⟩ := pyStrip_decomp l
  rw [← hst] at h
  exact noDouble_append_right _ t (noDouble_append_left s _ h)

/-! ## `slug` composite lemmas -/

theorem slugRxSub_mem {l : List Char} {c : Char} (h : c ∈ slugRxSub l) :
    c ∈ l ∧ slugKeep c = true := by
  unfold slugRxSub at h
  exact ⟨List.mem_of_mem_filter h, List.of_mem_filter h⟩

theorem slugRxSub_safe_id {l : List Char} (h : ∀ c ∈ l, isSafeChar c = true) :
    slugRxSub l = l :=
  List.filter_eq_self.mpr (fun c hc => safe_slugKeep (h c hc))

theorem slugCore_safe (l : List Char) : ∀ c ∈ slugCore l, isSafeChar c = true := by
  intro c hc
  rcases spaceRxSub_mem _ c hc with h | ⟨hm, hs⟩
  · rw [h]; decide
  · have h2 := pyStrip_mem hm
    have h3 := slugRxSub_mem h2
    exact keep_not_spcU_safe h3.2 hs

theorem slugCore_noDouble (l : List Char) : noDoubleSpc (slugCore l) = true :=
  noDouble_spaceRxSub _

theorem slugCore_canon {y : List Char} (hs : ∀ c ∈ y, isSafeChar c = true)
    (hd : noDoubleSpc y = true) : slugCore y = pyStrip y := by
  unfold slugCore
  rw [asciiFold_safe_id hs, slugRxSub_safe_id hs]
  apply spaceRxSub_id
  · intro c hc
    exact hs c (pyStrip_mem hc)
  · exact noDouble_pyStrip hd

theorem slugCore_three (l : List Char) :
    slugCore (slugCore (slugCore l)) = slugCore (slugCore l) := by
  have h1 : slugCore (slugCore l) = pyStrip (slugCore l) :=
    slugCore_canon (slugCore_safe l) (slugCore_noDouble l)
  rw [h1]
  have hs : ∀ c ∈ pyStrip (slugCore l), isSafeChar c = true :=
    fun c hc => slugCore_safe l c (pyStrip_mem hc)
  have hd : noDoubleSpc (pyStrip (slugCore l)) = true :=
    noDouble_pyStrip (slugCore_noDouble l)
  rw [slugCore_canon hs hd, pyStrip_idem]

theorem string_empty_iff (s : String) : s = "" ↔ s.data = [] := by
  constructor
  · intro h
    rw [h]
  · intro h
    cases s
    simp only at h
    rw [h]

theorem rawKey_data (t a : String) :
    (t ++ " - " ++ a).data = t.data ++ ([' ', '-', ' '] ++ a.data) := by
  rw [String.data_append, String.data_append, List.append_assoc]

theorem rawKey_ne_empty (t a : String) : (t ++ " - " ++ a) ≠ "" := by
  intro h
  rw [string_empty_iff, rawKey_data] at h
  simp at h

theorem slug_rawKey_ne_empty (t a : String) : slug (t ++ " - " ++ a) ≠ "" := by
  intro hemp
  rw [string_empty_iff] at hemp
  have hemp2 : slugCore (t ++ " - " ++ a).data = [] := hemp
  rw [rawKey_data] at hemp2
  revert hemp2
  show slugCore (t.data ++ ([' ', '-', ' '] ++ a.data)) ≠ []
  have hdash : ('-' : Char) ∈ asciiFold (t.data ++ ([' ', '-', ' '] ++ a.data)) := by
    rw [asciiFold_append, asciiFold_append]
    have hm : asciiFold [' ', '-', ' '] = [' ', '-', ' '] := by decide
    rw [hm]
    simp
  have hkeep : ('-' : Char) ∈ slugRxSub (asciiFold (t.data ++ ([' ', '-', ' '] ++ a.data))) :=
    List.mem_filter.mpr ⟨hdash, by decide⟩
  have hstrip := pyStrip_ne_nil hkeep (by decide)
  exact spaceRxSub_ne_nil _ hstrip

theorem truncateMax_ne_empty {s : String} (h : s ≠ "") : truncateMax s ≠ "" := by
  intro he
  apply h
  rw [string_empty_iff] at he ⊢
  have he2 : s.data.take MAX_DIR_CHARS = [] := he
  cases hd : s.data with
  | nil => rfl
  | cons c r =>
    rw [hd] at he2
    simp [MAX_DIR_CHARS] at he2

theorem goodName_truncate_slug (s : String) : goodName (truncateMax (slug s)) = true := by
  unfold goodName
  rw [Bool.and_eq_true]
  constructor
  · simp only [truncateMax, decide_eq_true_eq, List.length_take]
    omega
  · rw [List.all_eq_true]
    intro c hc
    have hc2 : c ∈ (slug s).data := List.take_subset _ _ hc
    exact slugCore_safe s.data c hc2

theorem not_pySpace_of_not_spcU {c : Char} (h : spcU c = false) :
    isPySpace c = false := by
  by_contra hc
  simp at hc
  simp [spcU, hc] at h

theorem spcU_false_of {c : Char} (h1 : isPySpace c = false) (h2 : c ≠ '_') :
    spcU c = false := by
  simp [spcU, h1]
  intro h95
  exact absurd (by simpa using char_eq_of_toNat_eq h95) h2

theorem head?_mem {l : List Char} {c : Char} (h : l.head? = some c) : c ∈ l := by
  cases l with
  | nil => simp at h
  | cons a r =>
    simp at h
    simp [h]

theorem getLast?_mem {l : List Char} {c : Char} (h : l.getLast? = some c) : c ∈ l := by
  have h2 : l.reverse.head? = some c := by rw [List.head?_reverse]; exact h
  exact List.mem_reverse.mp (head?_mem h2)

theorem spaceRxSub_head_not_ws {z : List Char}
    (hhead : ∀ c, z.head? = some c → spcU c = false) :
    ∀ c, (spaceRxSub z).head? = some c → isPySpace c = false := by
  cases z with
  | nil => intro c hc; simp [spaceRxSub] at hc
  | cons a r =>
    intro c hc
    have ha : spcU a = false := hhead a rfl
    obtain ⟨t, ht⟩ := spaceRxSub_cons_head a r
    rw [ht, if_neg (by simp [ha])] at hc
    simp at hc
    rw [← hc]
    exact not_pySpace_of_not_spcU ha

theorem spaceRxSub_last_not_ws {z : List Char}
    (hlast : ∀ c, z.getLast? = some c → spcU c = false) :
    ∀ c, (spaceRxSub z).getLast? = some c → isPySpace c = false := by
  induction z using List.reverseRecOn with
  | nil => intro c hc; simp [spaceRxSub] at hc
  | append_singleton z2 b _ =>
    intro c hc
    have hb : spcU b = false := hlast b (by simp)
    rw [spaceRxSub_append_last z2 b hb] at hc
    rw [List.getLast?_append_of_ne_nil _ (by simp)] at hc
    simp at hc
    rw [← hc]
    exact not_pySpace_of_not_spcU hb

/-! ## Claims -/

/-- C1 counterexample: `process_one` places the file under its ORIGINAL
base name, not under `<DestinationName><extension>`.  With metadata
(Dune, Frank Herbert), cached destination name "Dune - Frank Herbert"
and source base name "random123.epub", the destination file is
`.../Dune - Frank Herbert/random123.epub`, not
`.../Dune - Frank Herbert/Dune - Frank Herbert.epub`. -/
theorem C1_counterexample :
    (process_one_paths ("random123.epub") (some ("Dune"), some ("Frank Herbert"))
      [("Dune - Frank Herbert", "Dune - Frank Herbert")] (Except.error ())).destFile =
      "/mnt/storage/Books/Organized/Dune - Frank Herbert/random123.epub" ∧
    (process_one_paths ("random123.epub") (some ("Dune"), some ("Frank Herbert"))
      [("Dune - Frank Herbert", "Dune - Frank Herbert")] (Except.error ())).destFile ≠
      "/mnt/storage/Books/Organized/Dune - Frank Herbert/Dune - Frank Herbert.epub" := by
  decide

/-- C1 (amended): for every processed file, the destination path uses the
computed DestinationName as the subdirectory name only; the placed file
keeps its original base name:
`<dest_root>/<DestinationName>/<original file name>`. -/
theorem C1_amended_dest_path (fname : String) (e : Option String × Option String)
    (cache : List (String × String)) (resp : Except Unit String)
    (hn : (process_one_paths fname e cache resp).name ≠ "") (hf : fname ≠ "") :
    (process_one_paths fname e cache resp).destFile =
      DST_ROOT ++ "/" ++ (process_one_paths fname e cache resp).name ++ "/" ++ fname := by
  show pathJoin (pathJoin DST_ROOT ((process_one_paths fname e cache resp).name)) fname =
    DST_ROOT ++ "/" ++ (process_one_paths fname e cache resp).name ++ "/" ++ fname
  simp only [pathJoin]
  rw [if_neg hn, if_neg hf]

/-- C1 witness: concrete instantiation of `C1_amended_dest_path`. -/
theorem C1_witness :
    (process_one_paths ("b.epub") (some ("T"), some ("A")) [("T - A", "TA")]
      (Except.error ())).destFile =
      DST_ROOT ++ "/" ++ (process_one_paths ("b.epub") (some ("T"), some ("A"))
        [("T - A", "TA")] (Except.error ())).name ++ "/" ++ "b.epub" :=
  C1_amended_dest_path ("b.epub") (some ("T"), some ("A")) [("T - A", "TA")]
    (Except.error ()) (by decide) (by decide)

/-- C2 counterexample: a successful suggestion response consisting only of
punctuation slugs to the empty string, so the non-emptiness part of the
DestinationName invariant fails: `smart_slug` returns `""` (and caches it). -/
theorem C2_counterexample :
    (dirNameFor (some ("A")) (some ("B")) [] (Except.ok ("!!!"))).name = "" := by
  decide

/-- C2 (amended): every destination directory name produced by
`dirNameFor` is at most 120 characters and drawn from `[A-Za-z0-9 -]`
(hence free of path separators and control characters), provided every
cached value satisfies the same bound; the name is `"Unsorted"` whenever
title/author are not both truthy, and it is non-empty on the
suggestion-failure fallback path — but a name computed from a successful
suggestion response may be empty. -/
theorem C2_amended_names_sanitized (t a : Option String)
    (cache : List (String × String)) (resp : Except Unit String)
    (hc : ∀ p ∈ cache, goodName p.2 = true) :
    goodName (dirNameFor t a cache resp).name = true ∧
    ((truthy t && truthy a) = false → (dirNameFor t a cache resp).name = "Unsorted") ∧
    (∀ s1 s2, t = some s1 → a = some s2 →
      fsLookup cache (s1 ++ " - " ++ s2) = none → resp = Except.error () →
      (dirNameFor t a cache resp).name ≠ "") := by
  cases t with
  | none =>
    have hname : (dirNameFor none a cache resp).name = "Unsorted" := by
      simp [dirNameFor, truthy]
    refine ⟨?_, ?_, ?_⟩
    · rw [hname]; decide
    · intro _; exact hname
    · intro s1 s2 ht _ _ _
      exact absurd ht (by simp)
  | some s =>
    cases a with
    | none =>
      have hname : (dirNameFor (some s) none cache resp).name = "Unsorted" := by
        simp [dirNameFor, truthy]
      refine ⟨?_, ?_, ?_⟩
      · rw [hname]; decide
      · intro _; exact hname
      · intro s1 s2 _ ha _ _
        exact absurd ha (by simp)
    | some s2 =>
      by_cases htr : (truthy (some s) && truthy (some s2)) = true
      · have heq : dirNameFor (some s) (some s2) cache resp = smart_slug s s2 cache resp := by
          simp [dirNameFor, htr]
        rw [heq]
        have hne := rawKey_ne_empty s s2
        cases hlk : fsLookup cache (s ++ " - " ++ s2) with
        | some v =>
          have hv : goodName v = true := by
            unfold fsLookup at hlk
            cases hf : cache.find? (fun p => p.1 == (s ++ " - " ++ s2)) with
            | none => rw [hf] at hlk; simp at hlk
            | some pr =>
              rw [hf] at hlk
              simp at hlk
              have hmem := List.mem_of_find?_eq_some hf
              rw [← hlk]
              exact hc pr hmem
          have hname : (smart_slug s s2 cache resp).name = v := by
            simp [smart_slug, hne, hlk]
          refine ⟨?_, ?_, ?_⟩
          · rw [hname]; exact hv
          · intro hfalse
            rw [hfalse] at htr
            exact absurd htr (by simp)
          · intro s1' s2' ht ha hnone _
            injection ht with ht2
            injection ha with ha2
            rw [← ht2, ← ha2] at hnone
            rw [hnone] at hlk
            exact absurd hlk (by simp)
        | none =>
          cases resp with
          | ok text =>
            have hname : (smart_slug s s2 cache (Except.ok text)).name =
                truncateMax (slug (pyStripStr text)) := by
              simp [smart_slug, hne, hlk]
            refine ⟨?_, ?_, ?_⟩
            · rw [hname]
              exact goodName_truncate_slug _
            · intro hfalse
              rw [hfalse] at htr
              exact absurd htr (by simp)
            · intro s1' s2' _ _ _ hresp
              exact absurd hresp (by simp)
          | error u =>
            have hname : (smart_slug s s2 cache (Except.error u)).name =
                truncateMax (slug (s ++ " - " ++ s2)) := by
              simp [smart_slug, hne, hlk]
            refine ⟨?_, ?_, ?_⟩
            · rw [hname]
              exact goodName_truncate_slug _
            · intro hfalse
              rw [hfalse] at htr
              exact absurd htr (by simp)
            · intro s1' s2' _ _ _ _
              rw [hname]
              exact truncateMax_ne_empty (slug_rawKey_ne_empty s s2)
      · have hname : (dirNameFor (some s) (some s2) cache resp).name = "Unsorted" := by
          unfold dirNameFor
          rw [if_neg htr]
        refine ⟨?_, ?_, ?_⟩
        · rw [hname]; decide
        · intro _; exact hname
        · intro s1' s2' _ _ _ _
          rw [hname]
          decide

/-- C2 witness: concrete instantiation of `C2_amended_names_sanitized`
(suggestion-failure path with an empty cache). -/
theorem C2_witness :
    goodName (dirNameFor (some ("A")) (some ("B")) [] (Except.error ())).name = true ∧
    (dirNameFor (some ("A")) (some ("B")) [] (Except.error ())).name ≠ "" := by
  have h := C2_amended_names_sanitized (some ("A")) (some ("B")) [] (Except.error ())
    (by simp)
  exact ⟨h.1, h.2.2 ("A") ("B") rfl rfl (by decide) rfl⟩

/-- C3 counterexample: `slug` is NOT idempotent: `slug("_a_") = " a "`
but `slug(slug("_a_")) = "a"`. -/
theorem C3_counterexample : slug (slug ("_a_")) ≠ slug ("_a_") := by
  decide

/-- C3 (amended): `slug` is idempotent from the second application on:
for every input string, `slug (slug (slug x)) = slug (slug x)` (the only
obstruction to idempotency of a single application is leading/trailing
whitespace produced from edge underscores, which the second application
strips). -/
theorem C3_amended_idempotent_from_second (x : String) :
    slug (slug (slug x)) = slug (slug x) :=
  congrArg String.mk (slugCore_three x.data)

/-- C4 counterexample: `slug("_a_") = " a "` has leading (and trailing)
whitespace, refuting the no-edge-whitespace part of the claim. -/
theorem C4_counterexample :
    slug ("_a_") = " a " ∧ headIsWs (slug ("_a_")) = true := by
  decide

/-- C4 (amended): for every input string, `slug` output contains only
characters from `[A-Za-z0-9 -]`; and whenever the NFKD-decomposed,
ASCII-encoded form of the input (`asciiFold`) contains no underscore,
the output additionally has no leading or trailing whitespace.  The
condition is on the folded text, not the raw input, because NFKD
compatibility decompositions can introduce underscores: U+FF3F
FULLWIDTH LOW LINE folds to `_`, so both `slug("_a_")` and
`slug("＿a＿")` are `" a "`. -/
theorem C4_amended_slug_output (x : String) :
    (slug x).data.all isSafeChar = true ∧
    ('_' ∉ asciiFold x.data →
      headIsWs (slug x) = false ∧ lastIsWs (slug x) = false) := by
  constructor
  · rw [List.all_eq_true]
    exact fun c hc => slugCore_safe x.data c hc
  · intro hx
    have hz : ∀ c, (pyStrip (slugRxSub (asciiFold x.data))).head? = some c →
        spcU c = false := by
      intro c hc
      refine spcU_false_of (pyStrip_head hc) ?_
      intro h2
      rw [h2] at hc
      exact hx (slugRxSub_mem (pyStrip_mem (head?_mem hc))).1
    have hzl : ∀ c, (pyStrip (slugRxSub (asciiFold x.data))).getLast? = some c →
        spcU c = false := by
      intro c hc
      refine spcU_false_of (pyStrip_last hc) ?_
      intro h2
      rw [h2] at hc
      exact hx (slugRxSub_mem (pyStrip_mem (getLast?_mem hc))).1
    constructor
    · unfold headIsWs
      cases hh : (slug x).data.head? with
      | none => rfl
      | some c => exact spaceRxSub_head_not_ws hz c hh
    · unfold lastIsWs
      cases hh : (slug x).data.getLast? with
      | none => rfl
      | some c => exact spaceRxSub_last_not_ws hzl c hh

/-- C4 witness: concrete instantiation of `C4_amended_slug_output`. -/
theorem C4_witness :
    (slug ("Crime and Punishment - Fyodor Dostoevsky")).data.all isSafeChar = true ∧
    headIsWs (slug ("Crime and Punishment - Fyodor Dostoevsky")) = false ∧
    lastIsWs (slug ("Crime and Punishment - Fyodor Dostoevsky")) = false := by
  have h := C4_amended_slug_output ("Crime and Punishment - Fyodor Dostoevsky")
  exact ⟨h.1, (h.2 (by decide)).1, (h.2 (by decide)).2⟩

/-- C5: when title or author is still absent after metadata resolution,
the destination name is exactly "Unsorted", the cache is neither read nor
written, the suggestion collaborator is not invoked, and `slug` is not
invoked. -/
theorem C5_unsorted_no_consult (fname : String) (e : Option String × Option String)
    (cache : List (String × String)) (resp : Except Unit String)
    (h : (resolveMeta e fname).1 = none ∨ (resolveMeta e fname).2 = none) :
    (process_one_paths fname e cache resp).name = "Unsorted" ∧
    (process_one_paths fname e cache resp).cache = cache ∧
    (process_one_paths fname e cache resp).cacheRead = false ∧
    (process_one_paths fname e cache resp).suggested = false ∧
    (process_one_paths fname e cache resp).slugged = false := by
  have hfalse : (truthy (resolveMeta e fname).1 && truthy (resolveMeta e fname).2) = false := by
    rcases h with h | h <;> rw [h] <;> simp [truthy]
  simp [process_one_paths, dirNameFor, hfalse]

/-- C5 witness: a file with no extracted metadata and a non-matching base
name goes to "Unsorted" with no collaborator consulted. -/
theorem C5_witness :
    (process_one_paths ("book.epub") (none, none) [] (Except.error ())).name = "Unsorted" ∧
    (process_one_paths ("book.epub") (none, none) [] (Except.error ())).cache = [] ∧
    (process_one_paths ("book.epub") (none, none) [] (Except.error ())).cacheRead = false ∧
    (process_one_paths ("book.epub") (none, none) [] (Except.error ())).suggested = false ∧
    (process_one_paths ("book.epub") (none, none) [] (Except.error ())).slugged = false :=
  C5_unsorted_no_consult ("book.epub") (none, none) [] (Except.error ()) (by decide)

/-- C6: cache round-trip — when the cache maps the raw key
`"<title> - <author>"` to `X`, `smart_slug` returns `X` verbatim, leaves
the cache unchanged, and does not invoke the suggestion collaborator. -/
theorem C6_cache_roundtrip (t a X : String) (cache : List (String × String))
    (resp : Except Unit String)
    (h : fsLookup cache (t ++ " - " ++ a) = some X) :
    (smart_slug t a cache resp).name = X ∧
    (smart_slug t a cache resp).cache = cache ∧
    (smart_slug t a cache resp).suggested = false := by
  have hne := rawKey_ne_empty t a
  simp [smart_slug, hne, h]

/-- C6 witness: concrete instantiation of `C6_cache_roundtrip`. -/
theorem C6_witness :
    (smart_slug ("Dune") ("Frank Herbert") [("Dune - Frank Herbert", "X")]
      (Except.error ())).name = "X" ∧
    (smart_slug ("Dune") ("Frank Herbert") [("Dune - Frank Herbert", "X")]
      (Except.error ())).cache = [("Dune - Frank Herbert", "X")] ∧
    (smart_slug ("Dune") ("Frank Herbert") [("Dune - Frank Herbert", "X")]
      (Except.error ())).suggested = false :=
  C6_cache_roundtrip ("Dune") ("Frank Herbert") ("X")
    [("Dune - Frank Herbert", "X")] (Except.error ()) (by decide)

/-- C7: on a cache miss followed by a suggestion failure (GoogleAPIError),
`smart_slug` returns `slug(raw)` truncated to 120 characters, after having
invoked the collaborator, and stores nothing in the cache. -/
theorem C7_failure_fallback (t a : String) (cache : List (String × String))
    (h : fsLookup cache (t ++ " - " ++ a) = none) :
    (smart_slug t a cache (Except.error ())).name =
      truncateMax (slug (t ++ " - " ++ a)) ∧
    (smart_slug t a cache (Except.error ())).cache = cache ∧
    (smart_slug t a cache (Except.error ())).suggested = true := by
  have hne := rawKey_ne_empty t a
  simp [smart_slug, hne, h]

/-- C7 witness: concrete instantiation of `C7_failure_fallback`. -/
theorem C7_witness :
    (smart_slug ("Dune") ("Frank Herbert") [] (Except.error ())).name =
      truncateMax (slug ("Dune" ++ " - " ++ "Frank Herbert")) ∧
    (smart_slug ("Dune") ("Frank Herbert") [] (Except.error ())).cache = [] ∧
    (smart_slug ("Dune") ("Frank Herbert") [] (Except.error ())).suggested = true :=
  C7_failure_fallback ("Dune") ("Frank Herbert") [] (by decide)

/-- C8: placement idempotency — for every source path, destination path,
mode, filesystem and environment, when the destination already exists
`ensure_link` returns the already-existed outcome, leaves the filesystem
unchanged, and attempts no link, copy or symlink operation. -/
theorem C8_placement_idempotent (src dst : String) (mode : Mode)
    (fs : List (String × String)) (env : FsEnv)
    (h : (fsLookup fs dst).isSome = true) :
    ensure_link src dst mode fs env = ⟨fs, PlacementResult.alreadyExisted, []⟩ := by
  unfold ensure_link
  rw [if_pos h]

/-- C8 witness: concrete instantiation of `C8_placement_idempotent`. -/
theorem C8_witness :
    ensure_link ("src/a.epub") ("dst/a.epub") Mode.hardlink
      [("dst/a.epub", "CONTENT")] ⟨none, false, none⟩ =
      ⟨[("dst/a.epub", "CONTENT")], PlacementResult.alreadyExisted, []⟩ :=
  C8_placement_idempotent ("src/a.epub") ("dst/a.epub") Mode.hardlink
    [("dst/a.epub", "CONTENT")] ⟨none, false, none⟩ (by decide)

/-- C9: in hardlink mode with a cross-device (EXDEV, errno 18) link
failure and the source still present, `ensure_link` falls back to a copy:
when the copy succeeds the outcome is fell-back-to-copy, both operations
were attempted, and the destination content equals the source content;
the outcome is a failure exactly when the fallback copy itself fails. -/
theorem C9_exdev_fallback (src dst content : String)
    (fs : List (String × String)) (env : FsEnv)
    (h1 : fsLookup fs dst = none) (h2 : fsLookup fs src = some content)
    (h3 : env.linkErrno = some 18) :
    (env.copyErr = false →
      (ensure_link src dst Mode.hardlink fs env).result = PlacementResult.fellBackToCopy ∧
      fsLookup (ensure_link src dst Mode.hardlink fs env).fs dst = some content ∧
      (ensure_link src dst Mode.hardlink fs env).ops = [FsOp.link, FsOp.copy]) ∧
    (env.copyErr = true →
      (ensure_link src dst Mode.hardlink fs env).result = PlacementResult.failed) := by
  constructor
  · intro hcopy
    simp only [ensure_link, h1, h2, h3, hcopy]
    simp [fsLookup, fsInsert]
  · intro hcopy
    simp only [ensure_link, h1, h2, h3, hcopy]
    simp

/-- C9 witness: concrete instantiation of `C9_exdev_fallback` on the
successful-copy side. -/
theorem C9_witness :
    (ensure_link ("down/src.epub") ("org/dst.epub") Mode.hardlink
      [("down/src.epub", "BOOK")] ⟨some 18, false, none⟩).result =
      PlacementResult.fellBackToCopy ∧
    fsLookup (ensure_link ("down/src.epub") ("org/dst.epub") Mode.hardlink
      [("down/src.epub", "BOOK")] ⟨some 18, false, none⟩).fs ("org/dst.epub") =
      some ("BOOK") := by
  have h := (C9_exdev_fallback ("down/src.epub") ("org/dst.epub") ("BOOK")
    [("down/src.epub", "BOOK")] ⟨some 18, false, none⟩
    (by decide) (by decide) (by decide)).1 rfl
  exact ⟨h.1, h.2.1⟩

/-- C10: when structured extraction yields exactly one of the two fields,
the resolver discards the partial pair entirely: both fields are replaced
by the `fallback_meta` result, and when the base name does not match the
pattern both fields become absent. -/
theorem C10_partial_metadata_discarded (e : Option String × Option String)
    (fname : String)
    (h : (e.1 ≠ none ∧ e.2 = none) ∨ (e.1 = none ∧ e.2 ≠ none)) :
    resolveMeta e fname = fallback_meta fname ∧
    (fallback_meta fname = (none, none) → resolveMeta e fname = (none, none)) := by
  have hfalse : (truthy e.1 && truthy e.2) = false := by
    rcases h with ⟨h1, h2⟩ | ⟨h1, h2⟩
    · rw [h2]
      simp [truthy]
    · rw [h1]
      simp [truthy]
  constructor
  · simp [resolveMeta, hfalse]
  · intro h2
    simp [resolveMeta, hfalse, h2]

/-- C10 witness: an extracted title with no author is discarded in favour
of the filename pattern. -/
theorem C10_witness :
    resolveMeta (some ("Orphan"), none) ("Foo - Bar.epub") =
      fallback_meta ("Foo - Bar.epub") :=
  (C10_partial_metadata_discarded (some ("Orphan"), none) ("Foo - Bar.epub")
    (by decide)).1

end BookSort
